import Mathlib

/-!
Verification of the window registry of the desktop window manager
(WindowManagerProvider in src/components/desktop/WindowManager.tsx).

The registry state is a list of window records, a monotonically increasing
stacking counter (topZIndex, initially 100), and the key set of the
per-window open-timestamp bookkeeping map (windowOpenTimes; only the
presence of a key ever influences control flow, so the key set suffices).

Each operation of the provider is embedded as a pure state transformer,
and the observability notifications of openWindow (the trackWindowOpen
metric and the logWindowOpen breadcrumb) as a separate event function.
-/

/-- A window record.  Modelled from the spec: the WindowState interface is
declared in src/components/desktop/types, a file that is not part of the
sources; its fields are taken from the data model of the spec (id, title,
appType, x, y, width, height, zIndex, isMinimized, isMaximized, isFocused)
which matches every field access in WindowManager.tsx. -/
structure WindowState where
  id : String
  title : String
  appType : String
  x : Int
  y : Int
  width : Int
  height : Int
  zIndex : Nat
  isMinimized : Bool
  isMaximized : Bool
  isFocused : Bool
deriving DecidableEq, Repr

/-- The argument of openWindow: Omit WindowState zIndex isFocused, i.e. every
field of WindowState except zIndex and isFocused (so the caller does supply
isMinimized and isMaximized). -/
structure OpenArgs where
  id : String
  title : String
  appType : String
  x : Int
  y : Int
  width : Int
  height : Int
  isMinimized : Bool
  isMaximized : Bool
deriving DecidableEq, Repr

/-- The registry state held by WindowManagerProvider: the windows list, the
topZIndex counter and the key set of the windowOpenTimes record (the stored
timestamps are Date.now() values, always nonzero, and only their presence is
ever tested, so we keep the keys). -/
structure ManagerState where
  windows : List WindowState
  topZIndex : Nat
  openTimes : List String
deriving DecidableEq, Repr

/-- Initial state: useState of an empty list, useState 100, useState of an
empty record. -/
def initState : ManagerState := { windows := [], topZIndex := 100, openTimes := [] }

/-- Adding a key to the windowOpenTimes record ( ...prev, [id]: Date.now() ). -/
def addKey (id : String) (ks : List String) : List String :=
  if id ∈ ks then ks else id :: ks

/-- Removing a key from the windowOpenTimes record (destructuring delete). -/
def removeKey (id : String) (ks : List String) : List String :=
  ks.filter (fun k => k ≠ id)

/-- openWindow: compute newZ = topZIndex + 1; if a window with the id exists
and is minimized, unminimize it, focus it and give it newZ while unfocusing
all others; if it exists and is visible, focus it and give it newZ while
unfocusing all others; otherwise append a brand-new record built from the
arguments with zIndex = newZ and isFocused = true, unfocus all others, and
record the open time. -/
def openWindow (a : OpenArgs) (s : ManagerState) : ManagerState :=
  let newZ := s.topZIndex + 1
  match s.windows.find? (fun w => decide (w.id = a.id)) with
  | some existing =>
    if existing.isMinimized then
      { s with
        topZIndex := newZ,
        windows := s.windows.map (fun w =>
          if w.id = a.id then
            { w with isMinimized := false, isFocused := true, zIndex := newZ }
          else
            { w with isFocused := false }) }
    else
      { s with
        topZIndex := newZ,
        windows := s.windows.map (fun w =>
          if w.id = a.id then
            { w with isFocused := true, zIndex := newZ }
          else
            { w with isFocused := false }) }
  | none =>
    { s with
      topZIndex := newZ,
      windows := s.windows.map (fun w => { w with isFocused := false }) ++
        [{ id := a.id, title := a.title, appType := a.appType, x := a.x, y := a.y,
           width := a.width, height := a.height, zIndex := newZ,
           isMinimized := a.isMinimized, isMaximized := a.isMaximized,
           isFocused := true }],
      openTimes := addKey a.id s.openTimes }

/-- The observability notifications openWindow emits: on the brand-new path
both metrics.trackWindowOpen and breadcrumbs.logWindowOpen, on the
restore-from-minimized path only breadcrumbs.logWindowOpen, on the
already-visible path nothing. -/
inductive Notif where
  | openedMetric (id : String)
  | openedBreadcrumb (id : String) (title : String)
deriving DecidableEq, Repr

/-- The notifications emitted by one openWindow call, in emission order. -/
def openEvents (a : OpenArgs) (s : ManagerState) : List Notif :=
  match s.windows.find? (fun w => decide (w.id = a.id)) with
  | some existing =>
    if existing.isMinimized then
      [Notif.openedBreadcrumb a.id a.title]
    else
      []
  | none =>
    [Notif.openedMetric a.id, Notif.openedBreadcrumb a.id a.title]

/-- closeWindow: drop every record with the id; when the window was present
and had a recorded open time, also discard the bookkeeping entry. -/
def closeWindow (id : String) (s : ManagerState) : ManagerState :=
  let present := (s.windows.find? (fun w => decide (w.id = id))).isSome
  { s with
    windows := s.windows.filter (fun w => w.id ≠ id),
    openTimes := if present ∧ id ∈ s.openTimes then removeKey id s.openTimes
                 else s.openTimes }

/-- minimizeWindow: if the id matches, set isMinimized and clear isFocused;
other windows are untouched. -/
def minimizeWindow (id : String) (s : ManagerState) : ManagerState :=
  { s with
    windows := s.windows.map (fun w =>
      if w.id = id then { w with isMinimized := true, isFocused := false } else w) }

/-- maximizeWindow: if the id matches, toggle isMaximized; other windows are
untouched. -/
def maximizeWindow (id : String) (s : ManagerState) : ManagerState :=
  { s with
    windows := s.windows.map (fun w =>
      if w.id = id then { w with isMaximized := !w.isMaximized } else w) }

/-- restoreWindow: always increments topZIndex; the matching window is
unminimized, focused and given the new value, every other window is
unfocused. -/
def restoreWindow (id : String) (s : ManagerState) : ManagerState :=
  let newZ := s.topZIndex + 1
  { s with
    topZIndex := newZ,
    windows := s.windows.map (fun w =>
      if w.id = id then
        { w with isMinimized := false, isFocused := true, zIndex := newZ }
      else
        { w with isFocused := false }) }

/-- focusWindow: always increments topZIndex; the matching window is focused
and given the new value (isMinimized untouched), every other window is
unfocused. -/
def focusWindow (id : String) (s : ManagerState) : ManagerState :=
  let newZ := s.topZIndex + 1
  { s with
    topZIndex := newZ,
    windows := s.windows.map (fun w =>
      if w.id = id then
        { w with isFocused := true, zIndex := newZ }
      else
        { w with isFocused := false }) }

/-- updateWindowPosition: overwrite x and y of the matching window. -/
def updateWindowPosition (id : String) (x y : Int) (s : ManagerState) : ManagerState :=
  { s with
    windows := s.windows.map (fun w =>
      if w.id = id then { w with x := x, y := y } else w) }

/-- updateWindowSize: overwrite width and height of the matching window. -/
def updateWindowSize (id : String) (width height : Int) (s : ManagerState) : ManagerState :=
  { s with
    windows := s.windows.map (fun w =>
      if w.id = id then { w with width := width, height := height } else w) }

/-- The alphabet of registry operations. -/
inductive Op where
  | openWindow (a : OpenArgs)
  | closeWindow (id : String)
  | minimizeWindow (id : String)
  | maximizeWindow (id : String)
  | restoreWindow (id : String)
  | focusWindow (id : String)
  | updateWindowPosition (id : String) (x y : Int)
  | updateWindowSize (id : String) (width height : Int)
deriving DecidableEq, Repr

/-- One transition of the registry. -/
def step (op : Op) (s : ManagerState) : ManagerState :=
  match op with
  | Op.openWindow a => openWindow a s
  | Op.closeWindow id => closeWindow id s
  | Op.minimizeWindow id => minimizeWindow id s
  | Op.maximizeWindow id => maximizeWindow id s
  | Op.restoreWindow id => restoreWindow id s
  | Op.focusWindow id => focusWindow id s
  | Op.updateWindowPosition id x y => updateWindowPosition id x y s
  | Op.updateWindowSize id w h => updateWindowSize id w h s

/-- Running a sequence of operations from the initial state. -/
def run (ops : List Op) : ManagerState :=
  ops.foldl (fun s op => step op s) initState

/-- The states reachable from the empty registry. -/
inductive Reachable : ManagerState → Prop where
  | base : Reachable initState
  | next (op : Op) {s : ManagerState} : Reachable s → Reachable (step op s)

/-! ### Concrete fixtures used in scenario theorems and witnesses -/

/-- A concrete open argument for window id a. -/
def argA : OpenArgs :=
  { id := "a", title := "A", appType := "terminal", x := 0, y := 0,
    width := 400, height := 300, isMinimized := false, isMaximized := false }

/-- A concrete open argument for window id b. -/
def argB : OpenArgs := { argA with id := "b", title := "B" }

/-- A concrete open argument for window id c. -/
def argC : OpenArgs := { argA with id := "c", title := "C" }

/-- The state after opening a, then b, then c (scenario A of the spec). -/
def stateABC : ManagerState :=
  run [Op.openWindow argA, Op.openWindow argB, Op.openWindow argC]

/-- The state with only a open. -/
def stateA : ManagerState := run [Op.openWindow argA]

/-! ### Generic list lemmas for the mapped window transformations -/

/-- Projecting a field out of a mapped window list, when the image of the
mapping under the projection is known pointwise. -/
theorem map_proj_cond (g : WindowState → WindowState) {α : Type}
    (f : WindowState → α) (h : WindowState → α)
    (hg : ∀ w, f (g w) = h w) :
    ∀ l : List WindowState, (l.map g).map f = l.map h := by
  intro l
  induction l with
  | nil => rfl
  | cons a t ih => simp [hg, ih]

/-- Mapping a function that fixes every member of a list is the identity. -/
theorem map_noop (g : WindowState → WindowState) :
    ∀ l : List WindowState, (∀ w ∈ l, g w = w) → l.map g = l := by
  intro l
  induction l with
  | nil => intro _; rfl
  | cons a t ih =>
    intro h
    simp only [List.map_cons, h a (List.mem_cons_self a t)]
    rw [ih (fun w hw => h w (List.mem_cons_of_mem a hw))]

/-- Reassigning a fresh, strictly larger stacking value to the (at most one,
by id uniqueness) matching window keeps the stacking values pairwise
distinct. -/
theorem nodup_condUpdate (target : String) (newZ : Nat) :
    ∀ l : List WindowState,
      ((l.map fun w => w.id).Nodup) →
      ((l.map fun w => w.zIndex).Nodup) →
      (∀ w ∈ l, w.zIndex < newZ) →
      ((l.map fun w => if w.id = target then newZ else w.zIndex).Nodup) := by
  intro l
  induction l with
  | nil => intro _ _ _; simp
  | cons a t ih =>
    intro hids hzs hb
    simp only [List.map_cons, List.nodup_cons] at hids hzs ⊢
    refine ⟨?_, ih hids.2 hzs.2 (fun w hw => hb w (List.mem_cons_of_mem a hw))⟩
    intro hmem
    obtain ⟨w, hw, hval⟩ := List.mem_map.1 hmem
    have hbw : w.zIndex < newZ := hb w (List.mem_cons_of_mem a hw)
    have hba : a.zIndex < newZ := hb a (List.mem_cons_self a t)
    by_cases hwt : w.id = target <;> by_cases hat : a.id = target <;>
      simp only [hwt, hat, if_pos, if_neg, if_true, if_false] at hval
    · exact hids.1 (List.mem_map.2 ⟨w, hw, hwt.trans hat.symm⟩)
    · omega
    · omega
    · exact hzs.1 (List.mem_map.2 ⟨w, hw, hval⟩)

/-- With pairwise-distinct ids, at most one window matches a given id. -/
theorem countP_id_le_one (target : String) :
    ∀ l : List WindowState, ((l.map fun w => w.id).Nodup) →
      l.countP (fun w => decide (w.id = target)) ≤ 1 := by
  intro l
  induction l with
  | nil => intro _; simp
  | cons a t ih =>
    intro h
    simp only [List.map_cons, List.nodup_cons] at h
    rw [List.countP_cons]
    by_cases ha : a.id = target
    · have hz : t.countP (fun w => decide (w.id = target)) = 0 := by
        rw [List.countP_eq_zero]
        intro w hw
        simp only [decide_eq_true_eq]
        intro hwt
        exact h.1 (List.mem_map.2 ⟨w, hw, hwt.trans ha.symm⟩)
      simp [ha, hz]
    · simp only [ha, decide_eq_true_eq, if_neg, decide_False]
      simpa using ih h.2

/-! ### The reachable-state invariant -/

/-- The master invariant of the registry: ids are pairwise distinct, stacking
values are pairwise distinct and bounded by the counter, and at most one
window is focused. -/
def RegInv (s : ManagerState) : Prop :=
  ((s.windows.map fun w => w.id).Nodup) ∧
  ((s.windows.map fun w => w.zIndex).Nodup) ∧
  (∀ w ∈ s.windows, w.zIndex ≤ s.topZIndex) ∧
  s.windows.countP (fun w => w.isFocused) ≤ 1

/-- Invariant preservation for the four transformations that focus one
target window, give it a fresh stacking value, and unfocus all others
(focusWindow, restoreWindow, and both branches of openWindow on an
existing window). -/
theorem inv_map_focusLike (g : WindowState → WindowState) (target : String)
    (newZ : Nat)
    (hid : ∀ w, (g w).id = w.id)
    (hz : ∀ w, (g w).zIndex = if w.id = target then newZ else w.zIndex)
    (hf : ∀ w, (g w).isFocused = decide (w.id = target))
    (l : List WindowState) (top : Nat) (hlt : top < newZ)
    (hids : (l.map fun w => w.id).Nodup)
    (hzs : (l.map fun w => w.zIndex).Nodup)
    (hb : ∀ w ∈ l, w.zIndex ≤ top) :
    ((l.map g).map fun w => w.id).Nodup ∧
    ((l.map g).map fun w => w.zIndex).Nodup ∧
    (∀ w ∈ l.map g, w.zIndex ≤ newZ) ∧
    ((l.map g).countP fun w => w.isFocused) ≤ 1 := by
  refine ⟨?_, ?_, ?_, ?_⟩
  · rw [map_proj_cond g _ (fun w => w.id) hid l]
    exact hids
  · rw [map_proj_cond g _ (fun w => if w.id = target then newZ else w.zIndex) hz l]
    exact nodup_condUpdate target newZ l hids hzs
      (fun w hw => lt_of_le_of_lt (hb w hw) hlt)
  · intro w hw
    obtain ⟨u, hu, rfl⟩ := List.mem_map.1 hw
    rw [hz]
    by_cases h : u.id = target
    · simp [h]
    · simp only [h, if_neg, if_false]
      exact le_trans (hb u hu) (le_of_lt hlt)
  · rw [List.countP_map]
    have he : ((fun w => w.isFocused) ∘ g) = fun w => decide (w.id = target) :=
      funext hf
    rw [he]
    exact countP_id_le_one target l hids

/-- Invariant preservation for the transformations that keep the id and
stacking value of every window and never newly focus one (minimizeWindow,
maximizeWindow, updateWindowPosition, updateWindowSize). -/
theorem inv_map_frameLike (g : WindowState → WindowState)
    (hid : ∀ w, (g w).id = w.id)
    (hz : ∀ w, (g w).zIndex = w.zIndex)
    (hf : ∀ w, (g w).isFocused = true → w.isFocused = true)
    (l : List WindowState) (top : Nat)
    (hids : (l.map fun w => w.id).Nodup)
    (hzs : (l.map fun w => w.zIndex).Nodup)
    (hb : ∀ w ∈ l, w.zIndex ≤ top)
    (hc : l.countP (fun w => w.isFocused) ≤ 1) :
    ((l.map g).map fun w => w.id).Nodup ∧
    ((l.map g).map fun w => w.zIndex).Nodup ∧
    (∀ w ∈ l.map g, w.zIndex ≤ top) ∧
    ((l.map g).countP fun w => w.isFocused) ≤ 1 := by
  refine ⟨?_, ?_, ?_, ?_⟩
  · rw [map_proj_cond g _ (fun w => w.id) hid l]
    exact hids
  · rw [map_proj_cond g _ (fun w => w.zIndex) hz l]
    exact hzs
  · intro w hw
    obtain ⟨u, hu, rfl⟩ := List.mem_map.1 hw
    rw [hz]
    exact hb u hu
  · rw [List.countP_map]
    exact le_trans (List.countP_mono_left (fun w _ hw => hf w hw)) hc

/-- Every registry operation preserves the master invariant. -/
theorem regInv_step (op : Op) (s : ManagerState) (h : RegInv s) :
    RegInv (step op s) := by
  obtain ⟨hids, hzs, hb, hc⟩ := h
  cases op with
  | openWindow a =>
    show RegInv (openWindow a s)
    rcases hfind : s.windows.find? (fun w => decide (w.id = a.id)) with _ | existing
    · have habs : ∀ w ∈ s.windows, w.id ≠ a.id := by
        intro w hw
        have hx := List.find?_eq_none.1 hfind w hw
        simpa using hx
      simp only [openWindow, hfind, RegInv]
      refine ⟨?_, ?_, ?_, ?_⟩
      · rw [List.map_append,
          map_proj_cond (fun w => { w with isFocused := false }) (fun w => w.id)
            (fun w => w.id) (fun _ => rfl) s.windows]
        simp only [List.map_cons, List.map_nil]
        rw [(List.perm_append_singleton _ _).nodup_iff, List.nodup_cons]
        refine ⟨?_, hids⟩
        intro hmem
        obtain ⟨w, hw, hwid⟩ := List.mem_map.1 hmem
        exact habs w hw hwid
      · rw [List.map_append,
          map_proj_cond (fun w => { w with isFocused := false }) (fun w => w.zIndex)
            (fun w => w.zIndex) (fun _ => rfl) s.windows]
        simp only [List.map_cons, List.map_nil]
        rw [(List.perm_append_singleton _ _).nodup_iff, List.nodup_cons]
        refine ⟨?_, hzs⟩
        intro hmem
        obtain ⟨w, hw, hwz⟩ := List.mem_map.1 hmem
        have hbw := hb w hw
        omega
      · intro w hw
        rcases List.mem_append.1 hw with hw1 | hw2
        · obtain ⟨u, hu, rfl⟩ := List.mem_map.1 hw1
          exact le_trans (hb u hu) (Nat.le_succ _)
        · rw [List.mem_singleton] at hw2
          rw [hw2]
      · rw [List.countP_append, List.countP_map]
        have h0 : (s.windows.countP
            ((fun w => w.isFocused) ∘ fun w => { w with isFocused := false })) = 0 := by
          rw [List.countP_eq_zero]
          intro w hw
          simp
        rw [h0]
        simp
    · cases hmin : existing.isMinimized with
      | true =>
        simp only [openWindow, hfind, hmin, if_true, RegInv]
        exact inv_map_focusLike _ a.id (s.topZIndex + 1)
          (fun w => by by_cases hw : w.id = a.id <;> simp [hw])
          (fun w => by by_cases hw : w.id = a.id <;> simp [hw])
          (fun w => by by_cases hw : w.id = a.id <;> simp [hw])
          s.windows s.topZIndex (Nat.lt_succ_self _) hids hzs hb
      | false =>
        simp only [openWindow, hfind, hmin, if_false, RegInv]
        exact inv_map_focusLike _ a.id (s.topZIndex + 1)
          (fun w => by by_cases hw : w.id = a.id <;> simp [hw])
          (fun w => by by_cases hw : w.id = a.id <;> simp [hw])
          (fun w => by by_cases hw : w.id = a.id <;> simp [hw])
          s.windows s.topZIndex (Nat.lt_succ_self _) hids hzs hb
  | closeWindow id =>
    show RegInv (closeWindow id s)
    simp only [closeWindow, RegInv]
    have hsub := List.filter_sublist (l := s.windows) (p := fun w => decide (w.id ≠ id))
    refine ⟨hids.sublist (hsub.map _), hzs.sublist (hsub.map _), ?_, ?_⟩
    · intro w hw
      exact hb w (List.mem_of_mem_filter hw)
    · exact le_trans (hsub.countP_le _) hc
  | minimizeWindow id =>
    show RegInv (minimizeWindow id s)
    simp only [minimizeWindow, RegInv]
    exact inv_map_frameLike _
      (fun w => by by_cases hw : w.id = id <;> simp [hw])
      (fun w => by by_cases hw : w.id = id <;> simp [hw])
      (fun w => by by_cases hw : w.id = id <;> simp [hw])
      s.windows s.topZIndex hids hzs hb hc
  | maximizeWindow id =>
    show RegInv (maximizeWindow id s)
    simp only [maximizeWindow, RegInv]
    exact inv_map_frameLike _
      (fun w => by by_cases hw : w.id = id <;> simp [hw])
      (fun w => by by_cases hw : w.id = id <;> simp [hw])
      (fun w => by by_cases hw : w.id = id <;> simp [hw])
      s.windows s.topZIndex hids hzs hb hc
  | restoreWindow id =>
    show RegInv (restoreWindow id s)
    simp only [restoreWindow, RegInv]
    exact inv_map_focusLike _ id (s.topZIndex + 1)
      (fun w => by by_cases hw : w.id = id <;> simp [hw])
      (fun w => by by_cases hw : w.id = id <;> simp [hw])
      (fun w => by by_cases hw : w.id = id <;> simp [hw])
      s.windows s.topZIndex (Nat.lt_succ_self _) hids hzs hb
  | focusWindow id =>
    show RegInv (focusWindow id s)
    simp only [focusWindow, RegInv]
    exact inv_map_focusLike _ id (s.topZIndex + 1)
      (fun w => by by_cases hw : w.id = id <;> simp [hw])
      (fun w => by by_cases hw : w.id = id <;> simp [hw])
      (fun w => by by_cases hw : w.id = id <;> simp [hw])
      s.windows s.topZIndex (Nat.lt_succ_self _) hids hzs hb
  | updateWindowPosition id x y =>
    show RegInv (updateWindowPosition id x y s)
    simp only [updateWindowPosition, RegInv]
    exact inv_map_frameLike _
      (fun w => by by_cases hw : w.id = id <;> simp [hw])
      (fun w => by by_cases hw : w.id = id <;> simp [hw])
      (fun w => by by_cases hw : w.id = id <;> simp [hw])
      s.windows s.topZIndex hids hzs hb hc
  | updateWindowSize id width height =>
    show RegInv (updateWindowSize id width height s)
    simp only [updateWindowSize, RegInv]
    exact inv_map_frameLike _
      (fun w => by by_cases hw : w.id = id <;> simp [hw])
      (fun w => by by_cases hw : w.id = id <;> simp [hw])
      (fun w => by by_cases hw : w.id = id <;> simp [hw])
      s.windows s.topZIndex hids hzs hb hc

/-- Every reachable state satisfies the master invariant. -/
theorem regInv_reachable {s : ManagerState} (h : Reachable s) : RegInv s := by
  induction h with
  | base => refine ⟨?_, ?_, ?_, ?_⟩ <;> simp [initState]
  | next op hr ih => exact regInv_step op _ ih

/-- Every state produced by running a list of operations is reachable. -/
theorem reachable_run (ops : List Op) : Reachable (run ops) := by
  suffices h : ∀ s, Reachable s → Reachable (List.foldl (fun s op => step op s) s ops) from
    h initState Reachable.base
  induction ops with
  | nil => intro s hs; exact hs
  | cons op t ih => intro s hs; exact ih (step op s) (Reachable.next op hs)

/-! ### C5: focus exclusivity -/

/-- C5: for every reachable registry state, the number of windows with
isFocused = true is 0 or 1; no sequence of the eight operations produces
two simultaneously focused windows. -/
theorem focus_exclusive_reachable (s : ManagerState) (h : Reachable s) :
    (s.windows.filter fun w => w.isFocused).length = 0 ∨
    (s.windows.filter fun w => w.isFocused).length = 1 := by
  have hc := (regInv_reachable h).2.2.2
  rw [← List.countP_eq_length_filter]
  omega

/-- Witness for C5 at the concrete reachable state with a, b, c opened. -/
theorem focus_exclusive_reachable_witness :
    (stateABC.windows.filter fun w => w.isFocused).length = 0 ∨
    (stateABC.windows.filter fun w => w.isFocused).length = 1 :=
  focus_exclusive_reachable stateABC
    (reachable_run [Op.openWindow argA, Op.openWindow argB, Op.openWindow argC])

/-! ### C6: unique stacking values, freshly raised window on top -/

/-- After a transformation that gives the target a fresh stacking value
strictly above the bound of every current value, the target lies strictly
above every other window. -/
theorem top_after_focusLike (g : WindowState → WindowState) (target : String)
    (newZ : Nat)
    (hid : ∀ w, (g w).id = w.id)
    (hz : ∀ w, (g w).zIndex = if w.id = target then newZ else w.zIndex)
    (l : List WindowState) (top : Nat) (hlt : top < newZ)
    (hb : ∀ w ∈ l, w.zIndex ≤ top) :
    ∀ w ∈ l.map g, w.id = target → ∀ w2 ∈ l.map g, w2.id ≠ target →
      w2.zIndex < w.zIndex := by
  intro w hw hwt w2 hw2 hw2t
  obtain ⟨u, hu, rfl⟩ := List.mem_map.1 hw
  obtain ⟨u2, hu2, rfl⟩ := List.mem_map.1 hw2
  rw [hid] at hwt
  rw [hid] at hw2t
  rw [hz, hz, if_pos hwt, if_neg hw2t]
  exact lt_of_le_of_lt (hb u2 hu2) hlt

/-- C6: in every reachable state the stacking values are pairwise distinct,
and immediately after any open, focus, or restore whose target exists (or
was created), that window holds the strictly greatest stacking value. -/
theorem zIndex_distinct_and_raised_on_top (s : ManagerState) (h : Reachable s) :
    (List.Pairwise (fun w1 w2 => w1.zIndex ≠ w2.zIndex) s.windows) ∧
    (∀ a : OpenArgs, ∀ w ∈ (openWindow a s).windows, w.id = a.id →
      ∀ w2 ∈ (openWindow a s).windows, w2.id ≠ a.id → w2.zIndex < w.zIndex) ∧
    (∀ id : String, ∀ w ∈ (focusWindow id s).windows, w.id = id →
      ∀ w2 ∈ (focusWindow id s).windows, w2.id ≠ id → w2.zIndex < w.zIndex) ∧
    (∀ id : String, ∀ w ∈ (restoreWindow id s).windows, w.id = id →
      ∀ w2 ∈ (restoreWindow id s).windows, w2.id ≠ id → w2.zIndex < w.zIndex) := by
  obtain ⟨hids, hzs, hb, hc⟩ := regInv_reachable h
  refine ⟨?_, ?_, ?_, ?_⟩
  · exact List.pairwise_map.1 hzs
  · intro a
    rcases hfind : s.windows.find? (fun w => decide (w.id = a.id)) with _ | existing
    · have habs : ∀ w ∈ s.windows, w.id ≠ a.id := by
        intro w hw
        have hx := List.find?_eq_none.1 hfind w hw
        simpa using hx
      simp only [openWindow, hfind]
      intro w hw hwt w2 hw2 hw2t
      rcases List.mem_append.1 hw with hw1 | hw1
      · obtain ⟨u, hu, rfl⟩ := List.mem_map.1 hw1
        exact absurd hwt (habs u hu)
      · rw [List.mem_singleton] at hw1
        rcases List.mem_append.1 hw2 with hw3 | hw3
        · obtain ⟨u2, hu2, rfl⟩ := List.mem_map.1 hw3
          rw [hw1]
          exact lt_of_le_of_lt (hb u2 hu2) (Nat.lt_succ_self _)
        · rw [List.mem_singleton] at hw3
          rw [hw3] at hw2t
          simp at hw2t
    · cases hmin : existing.isMinimized with
      | true =>
        simp only [openWindow, hfind, hmin, if_true]
        exact top_after_focusLike _ a.id (s.topZIndex + 1)
          (fun w => by by_cases hw : w.id = a.id <;> simp [hw])
          (fun w => by by_cases hw : w.id = a.id <;> simp [hw])
          s.windows s.topZIndex (Nat.lt_succ_self _) hb
      | false =>
        simp only [openWindow, hfind, hmin, if_false]
        exact top_after_focusLike _ a.id (s.topZIndex + 1)
          (fun w => by by_cases hw : w.id = a.id <;> simp [hw])
          (fun w => by by_cases hw : w.id = a.id <;> simp [hw])
          s.windows s.topZIndex (Nat.lt_succ_self _) hb
  · intro id
    simp only [focusWindow]
    exact top_after_focusLike _ id (s.topZIndex + 1)
      (fun w => by by_cases hw : w.id = id <;> simp [hw])
      (fun w => by by_cases hw : w.id = id <;> simp [hw])
      s.windows s.topZIndex (Nat.lt_succ_self _) hb
  · intro id
    simp only [restoreWindow]
    exact top_after_focusLike _ id (s.topZIndex + 1)
      (fun w => by by_cases hw : w.id = id <;> simp [hw])
      (fun w => by by_cases hw : w.id = id <;> simp [hw])
      s.windows s.topZIndex (Nat.lt_succ_self _) hb

/-- Witness for C6 at the concrete reachable state with a, b, c opened. -/
theorem zIndex_distinct_and_raised_on_top_witness :
    (List.Pairwise (fun w1 w2 => w1.zIndex ≠ w2.zIndex) stateABC.windows) ∧
    (∀ a : OpenArgs, ∀ w ∈ (openWindow a stateABC).windows, w.id = a.id →
      ∀ w2 ∈ (openWindow a stateABC).windows, w2.id ≠ a.id → w2.zIndex < w.zIndex) ∧
    (∀ id : String, ∀ w ∈ (focusWindow id stateABC).windows, w.id = id →
      ∀ w2 ∈ (focusWindow id stateABC).windows, w2.id ≠ id → w2.zIndex < w.zIndex) ∧
    (∀ id : String, ∀ w ∈ (restoreWindow id stateABC).windows, w.id = id →
      ∀ w2 ∈ (restoreWindow id stateABC).windows, w2.id ≠ id → w2.zIndex < w.zIndex) :=
  zIndex_distinct_and_raised_on_top stateABC
    (reachable_run [Op.openWindow argA, Op.openWindow argB, Op.openWindow argC])

/-! ### C1: minimized windows and focus -/

/-- C1 counterexample: the state reached by open(a); minimize(a); focus(a)
is reachable, and in it window a has isMinimized = true and
isFocused = true simultaneously (focusWindow does not clear isMinimized). -/
theorem minimized_and_focused_reachable :
    Reachable (run [Op.openWindow argA, Op.minimizeWindow "a", Op.focusWindow "a"]) ∧
    ((run [Op.openWindow argA, Op.minimizeWindow "a", Op.focusWindow "a"]).windows.any
      fun w => w.isMinimized && w.isFocused) = true :=
  ⟨reachable_run [Op.openWindow argA, Op.minimizeWindow "a", Op.focusWindow "a"],
   by decide⟩

/-- The side condition under which an operation cannot create a window that
is both minimized and focused: focus is not applied to a currently-minimized
window, and open is not handed isMinimized = true in its arguments. -/
def okOp (op : Op) (s : ManagerState) : Prop :=
  match op with
  | Op.openWindow a => a.isMinimized = false
  | Op.focusWindow id => ∀ w ∈ s.windows, w.id = id → w.isMinimized = false
  | _ => True

/-- Reachability along traces whose every operation satisfies okOp in the
state where it fires. -/
inductive ReachableSafe : ManagerState → Prop where
  | base : ReachableSafe initState
  | next (op : Op) {s : ManagerState} :
      ReachableSafe s → okOp op s → ReachableSafe (step op s)

/-- No window is both minimized and focused. -/
def MinFocOK (s : ManagerState) : Prop :=
  ∀ w ∈ s.windows, w.isMinimized = true → w.isFocused = false

/-- Guarded trace reachability implies plain reachability. -/
theorem reachableSafe_reachable {s : ManagerState} (h : ReachableSafe s) :
    Reachable s := by
  induction h with
  | base => exact Reachable.base
  | next op hr hok ih => exact Reachable.next op ih

/-- A step satisfying okOp preserves MinFocOK (id uniqueness is needed for
the branch of openWindow that re-focuses a visible window). -/
theorem minFocOK_step (op : Op) (s : ManagerState) (hok : okOp op s)
    (hids : (s.windows.map fun w => w.id).Nodup) (h : MinFocOK s) :
    MinFocOK (step op s) := by
  cases op with
  | openWindow a =>
    show MinFocOK (openWindow a s)
    rcases hfind : s.windows.find? (fun w => decide (w.id = a.id)) with _ | existing
    · simp only [openWindow, hfind]
      intro w hw
      rcases List.mem_append.1 hw with hw1 | hw1
      · obtain ⟨u, hu, rfl⟩ := List.mem_map.1 hw1
        intro _
        rfl
      · rw [List.mem_singleton] at hw1
        rw [hw1]
        simp only
        intro hmin
        exact absurd (hok.symm.trans hmin) (by simp)
    · have hexmem := List.mem_of_find?_eq_some hfind
      have hexid : existing.id = a.id := by
        have hx := List.find?_some hfind
        simpa using hx
      cases hmin : existing.isMinimized with
      | true =>
        simp only [openWindow, hfind, hmin, if_true]
        intro w hw
        obtain ⟨u, hu, rfl⟩ := List.mem_map.1 hw
        by_cases hu2 : u.id = a.id <;> simp [hu2]
      | false =>
        simp only [openWindow, hfind, hmin, Bool.false_eq_true, if_false]
        intro w hw
        obtain ⟨u, hu, rfl⟩ := List.mem_map.1 hw
        by_cases hu2 : u.id = a.id
        · have hueq : u = existing :=
            List.inj_on_of_nodup_map hids hu hexmem (hu2.trans hexid.symm)
          simp [hu2, hueq, hmin, hexid]
        · simp [hu2]
  | closeWindow id =>
    show MinFocOK (closeWindow id s)
    simp only [closeWindow]
    intro w hw
    exact h w (List.mem_of_mem_filter hw)
  | minimizeWindow id =>
    show MinFocOK (minimizeWindow id s)
    simp only [minimizeWindow]
    intro w hw
    obtain ⟨u, hu, rfl⟩ := List.mem_map.1 hw
    by_cases hu2 : u.id = id
    · simp [hu2]
    · simp only [hu2, if_neg, if_false]
      exact h u hu
  | maximizeWindow id =>
    show MinFocOK (maximizeWindow id s)
    simp only [maximizeWindow]
    intro w hw
    obtain ⟨u, hu, rfl⟩ := List.mem_map.1 hw
    by_cases hu2 : u.id = id <;> simp only [hu2, if_pos, if_neg, if_true, if_false] <;>
      exact h u hu
  | restoreWindow id =>
    show MinFocOK (restoreWindow id s)
    simp only [restoreWindow]
    intro w hw
    obtain ⟨u, hu, rfl⟩ := List.mem_map.1 hw
    by_cases hu2 : u.id = id <;> simp [hu2]
  | focusWindow id =>
    show MinFocOK (focusWindow id s)
    simp only [focusWindow]
    intro w hw
    obtain ⟨u, hu, rfl⟩ := List.mem_map.1 hw
    by_cases hu2 : u.id = id
    · simp only [hu2, if_pos, if_true]
      intro hmin
      exact absurd ((hok u hu hu2).symm.trans hmin) (by simp)
    · simp [hu2]
  | updateWindowPosition id x y =>
    show MinFocOK (updateWindowPosition id x y s)
    simp only [updateWindowPosition]
    intro w hw
    obtain ⟨u, hu, rfl⟩ := List.mem_map.1 hw
    by_cases hu2 : u.id = id <;> simp only [hu2, if_pos, if_neg, if_true, if_false] <;>
      exact h u hu
  | updateWindowSize id width height =>
    show MinFocOK (updateWindowSize id width height s)
    simp only [updateWindowSize]
    intro w hw
    obtain ⟨u, hu, rfl⟩ := List.mem_map.1 hw
    by_cases hu2 : u.id = id <;> simp only [hu2, if_pos, if_neg, if_true, if_false] <;>
      exact h u hu

/-- C1 amended: along every trace in which focus is never invoked on a
currently-minimized window and open is never handed isMinimized = true, no
window ever has isMinimized = true and isFocused = true at the same time. -/
theorem minimized_never_focused_safe (s : ManagerState) (h : ReachableSafe s) :
    ∀ w ∈ s.windows, ¬(w.isMinimized = true ∧ w.isFocused = true) := by
  have hmf : MinFocOK s := by
    induction h with
    | base => intro w hw; exact absurd hw (List.not_mem_nil w)
    | next op hr hok ih =>
      exact minFocOK_step op _ hok
        (regInv_reachable (reachableSafe_reachable hr)).1 ih
  intro w hw hcon
  have := hmf w hw hcon.1
  rw [this] at hcon
  exact absurd hcon.2 (by simp)

/-- Witness for C1 amended at the concrete safe trace
open(a); minimize(a); restore(a). -/
theorem minimized_never_focused_safe_witness :
    (run [Op.openWindow argA, Op.minimizeWindow "a",
        Op.restoreWindow "a"]).windows ≠ [] ∧
    (∀ w ∈ (run [Op.openWindow argA, Op.minimizeWindow "a",
        Op.restoreWindow "a"]).windows,
      ¬(w.isMinimized = true ∧ w.isFocused = true)) :=
  ⟨by decide,
   minimized_never_focused_safe _
    (ReachableSafe.next (Op.restoreWindow "a")
      (ReachableSafe.next (Op.minimizeWindow "a")
        (ReachableSafe.next (Op.openWindow argA) ReachableSafe.base rfl)
        trivial)
      trivial)⟩

/-! ### C2: operations on an unregistered id -/

/-- C2 counterexample: with only window a registered, focusWindow and
restoreWindow on the unknown id b do change the registry state (they bump
the stacking counter and unfocus window a). -/
theorem unknown_id_not_noop :
    (∀ w ∈ stateA.windows, w.id ≠ "b") ∧
    focusWindow "b" stateA ≠ stateA ∧
    restoreWindow "b" stateA ≠ stateA := by decide

/-- C2 amended: on an unregistered id, close, minimize, maximize,
updatePosition and updateSize leave the state exactly unchanged, while focus
and restore raise no error but increment the stacking counter and clear
the isFocused flag of every window. -/
theorem unknown_id_noop_or_unfocus (s : ManagerState) (id : String)
    (h : ∀ w ∈ s.windows, w.id ≠ id) :
    closeWindow id s = s ∧
    minimizeWindow id s = s ∧
    maximizeWindow id s = s ∧
    (∀ x y : Int, updateWindowPosition id x y s = s) ∧
    (∀ width height : Int, updateWindowSize id width height s = s) ∧
    focusWindow id s =
      { s with
        topZIndex := s.topZIndex + 1,
        windows := s.windows.map fun w => { w with isFocused := false } } ∧
    restoreWindow id s =
      { s with
        topZIndex := s.topZIndex + 1,
        windows := s.windows.map fun w => { w with isFocused := false } } := by
  have hfind : s.windows.find? (fun w => decide (w.id = id)) = none := by
    rw [List.find?_eq_none]
    intro w hw
    simpa using h w hw
  refine ⟨?_, ?_, ?_, ?_, ?_, ?_, ?_⟩
  · have hfilter : s.windows.filter (fun w => !decide (w.id = id)) = s.windows := by
      rw [List.filter_eq_self]
      intro w hw
      simpa using h w hw
    simp [closeWindow, hfind, hfilter]
  · have hmap : (s.windows.map fun w =>
        if w.id = id then { w with isMinimized := true, isFocused := false } else w) =
        s.windows :=
      map_noop _ s.windows (fun w hw => by rw [if_neg (h w hw)])
    simp [minimizeWindow, hmap]
  · have hmap : (s.windows.map fun w =>
        if w.id = id then { w with isMaximized := !w.isMaximized } else w) =
        s.windows :=
      map_noop _ s.windows (fun w hw => by rw [if_neg (h w hw)])
    simp [maximizeWindow, hmap]
  · intro x y
    have hmap : (s.windows.map fun w =>
        if w.id = id then { w with x := x, y := y } else w) = s.windows :=
      map_noop _ s.windows (fun w hw => by rw [if_neg (h w hw)])
    simp [updateWindowPosition, hmap]
  · intro width height
    have hmap : (s.windows.map fun w =>
        if w.id = id then { w with width := width, height := height } else w) =
        s.windows :=
      map_noop _ s.windows (fun w hw => by rw [if_neg (h w hw)])
    simp [updateWindowSize, hmap]
  · have hmap : (s.windows.map fun w =>
        if w.id = id then { w with isFocused := true, zIndex := s.topZIndex + 1 }
        else { w with isFocused := false }) =
        s.windows.map fun w => { w with isFocused := false } :=
      List.map_congr_left (fun w hw => by rw [if_neg (h w hw)])
    simp [focusWindow, hmap]
  · have hmap : (s.windows.map fun w =>
        if w.id = id then
          { w with isMinimized := false, isFocused := true, zIndex := s.topZIndex + 1 }
        else { w with isFocused := false }) =
        s.windows.map fun w => { w with isFocused := false } :=
      List.map_congr_left (fun w hw => by rw [if_neg (h w hw)])
    simp [restoreWindow, hmap]

/-- Witness for C2 amended: concrete state with only a registered, id b. -/
theorem unknown_id_noop_or_unfocus_witness :
    closeWindow "b" stateA = stateA ∧
    minimizeWindow "b" stateA = stateA ∧
    maximizeWindow "b" stateA = stateA ∧
    updateWindowPosition "b" 5 6 stateA = stateA ∧
    updateWindowSize "b" 7 8 stateA = stateA ∧
    focusWindow "b" stateA =
      { stateA with
        topZIndex := stateA.topZIndex + 1,
        windows := stateA.windows.map fun w => { w with isFocused := false } } ∧
    restoreWindow "b" stateA =
      { stateA with
        topZIndex := stateA.topZIndex + 1,
        windows := stateA.windows.map fun w => { w with isFocused := false } } := by
  have hmain := unknown_id_noop_or_unfocus stateA "b" (by decide)
  exact ⟨hmain.1, hmain.2.1, hmain.2.2.1, hmain.2.2.2.1 5 6,
    hmain.2.2.2.2.1 7 8, hmain.2.2.2.2.2.1, hmain.2.2.2.2.2.2⟩

/-! ### C3: open/close round trip -/

/-- C3 counterexample: with window a open and focused, open(b); close(b)
does not return the windows to their prior observable state: a has lost its
focus. -/
theorem open_close_roundtrip_counterexample :
    (∀ w ∈ stateA.windows, w.id ≠ "b") ∧
    argB.id = "b" ∧
    (closeWindow "b" (openWindow argB stateA)).windows ≠ stateA.windows := by
  decide

/-- C3 amended: for a fresh id, open then close returns every window with
all fields unchanged except isFocused, which is cleared on every window;
the stacking counter increases by one (in particular it never decreases). -/
theorem open_close_roundtrip (s : ManagerState) (a : OpenArgs)
    (h : ∀ w ∈ s.windows, w.id ≠ a.id) :
    (closeWindow a.id (openWindow a s)).windows =
      s.windows.map (fun w => { w with isFocused := false }) ∧
    (closeWindow a.id (openWindow a s)).topZIndex = s.topZIndex + 1 ∧
    s.topZIndex ≤ (closeWindow a.id (openWindow a s)).topZIndex := by
  have hfind : s.windows.find? (fun w => decide (w.id = a.id)) = none := by
    rw [List.find?_eq_none]
    intro w hw
    simpa using h w hw
  have h1 : (s.windows.map fun w => { w with isFocused := false }).filter
      (fun w => !decide (w.id = a.id)) =
      s.windows.map fun w => { w with isFocused := false } := by
    rw [List.filter_eq_self]
    intro w hw
    obtain ⟨u, hu, rfl⟩ := List.mem_map.1 hw
    simpa using h u hu
  refine ⟨?_, ?_, ?_⟩
  · simp only [openWindow, hfind, closeWindow, List.filter_append, h1]
    simp
    exact h
  · simp only [openWindow, hfind, closeWindow]
  · simp only [openWindow, hfind, closeWindow]
    exact Nat.le_succ _

/-- Witness for C3 amended at the concrete state with a open, opening and
closing b. -/
theorem open_close_roundtrip_witness :
    (closeWindow argB.id (openWindow argB stateA)).windows =
      stateA.windows.map (fun w => { w with isFocused := false }) ∧
    (closeWindow argB.id (openWindow argB stateA)).topZIndex =
      stateA.topZIndex + 1 ∧
    stateA.topZIndex ≤ (closeWindow argB.id (openWindow argB stateA)).topZIndex :=
  open_close_roundtrip stateA argB (by decide)

/-! ### C4: the opened notification -/

/-- C4 counterexample: when window a already exists (minimized), openWindow
still emits the opened breadcrumb (logWindowOpen), although no brand-new
record is created. -/
theorem opened_breadcrumb_counterexample :
    (∃ w ∈ (run [Op.openWindow argA, Op.minimizeWindow "a"]).windows,
      w.id = argA.id) ∧
    Notif.openedBreadcrumb argA.id argA.title ∈
      openEvents argA (run [Op.openWindow argA, Op.minimizeWindow "a"]) := by
  decide

/-- C4 amended: with pairwise-distinct ids, the opened breadcrumb
(logWindowOpen) is emitted exactly when no window with the id existed
before the call or the existing window was minimized; the opened metric
(trackWindowOpen) is emitted exactly when no window with the id existed. -/
theorem openEvents_exactly (s : ManagerState) (a : OpenArgs)
    (hids : (s.windows.map fun w => w.id).Nodup) :
    (Notif.openedMetric a.id ∈ openEvents a s ↔
      ∀ w ∈ s.windows, w.id ≠ a.id) ∧
    (Notif.openedBreadcrumb a.id a.title ∈ openEvents a s ↔
      ((∀ w ∈ s.windows, w.id ≠ a.id) ∨
        (∃ w ∈ s.windows, w.id = a.id ∧ w.isMinimized = true))) := by
  rcases hfind : s.windows.find? (fun w => decide (w.id = a.id)) with _ | existing
  · have habs : ∀ w ∈ s.windows, w.id ≠ a.id := by
      intro w hw
      have hx := List.find?_eq_none.1 hfind w hw
      simpa using hx
    simp only [openEvents, hfind]
    exact ⟨⟨fun _ => habs, fun _ => by simp⟩,
      ⟨fun _ => Or.inl habs, fun _ => by simp⟩⟩
  · have hexmem := List.mem_of_find?_eq_some hfind
    have hexid : existing.id = a.id := by
      have hx := List.find?_some hfind
      simpa using hx
    have hnabs : ¬(∀ w ∈ s.windows, w.id ≠ a.id) := fun hall =>
      hall existing hexmem hexid
    cases hmin : existing.isMinimized with
    | true =>
      simp only [openEvents, hfind, hmin, if_true]
      refine ⟨?_, ?_⟩
      · constructor
        · intro hmem
          rw [List.mem_singleton] at hmem
          exact absurd hmem (by simp)
        · intro hall
          exact absurd hall hnabs
      · constructor
        · intro _
          exact Or.inr ⟨existing, hexmem, hexid, hmin⟩
        · intro _
          simp
    | false =>
      simp only [openEvents, hfind, hmin, Bool.false_eq_true, if_false]
      refine ⟨?_, ?_⟩
      · constructor
        · intro hmem
          exact absurd hmem (List.not_mem_nil _)
        · intro hall
          exact absurd hall hnabs
      · constructor
        · intro hmem
          exact absurd hmem (List.not_mem_nil _)
        · intro hor
          rcases hor with hall | ⟨w, hw, hwid, hwmin⟩
          · exact absurd hall hnabs
          · have hweq : w = existing :=
              List.inj_on_of_nodup_map hids hw hexmem (hwid.trans hexid.symm)
            rw [hweq, hmin] at hwmin
            exact absurd hwmin (by simp)

/-- Witness for C4 amended at the concrete state where a exists minimized. -/
theorem openEvents_exactly_witness :
    (Notif.openedMetric argA.id ∈
        openEvents argA (run [Op.openWindow argA, Op.minimizeWindow "a"]) ↔
      ∀ w ∈ (run [Op.openWindow argA, Op.minimizeWindow "a"]).windows,
        w.id ≠ argA.id) ∧
    (Notif.openedBreadcrumb argA.id argA.title ∈
        openEvents argA (run [Op.openWindow argA, Op.minimizeWindow "a"]) ↔
      ((∀ w ∈ (run [Op.openWindow argA, Op.minimizeWindow "a"]).windows,
          w.id ≠ argA.id) ∨
        (∃ w ∈ (run [Op.openWindow argA, Op.minimizeWindow "a"]).windows,
          w.id = argA.id ∧ w.isMinimized = true))) :=
  openEvents_exactly (run [Op.openWindow argA, Op.minimizeWindow "a"]) argA
    (by decide)

/-! ### C7: close removes exactly the target record -/

/-- Dropping the unique window with a registered id shortens the list by
exactly one. -/
theorem length_filter_remove (target : String) :
    ∀ l : List WindowState, ((l.map fun w => w.id).Nodup) →
      (∃ w ∈ l, w.id = target) →
      (l.filter fun w => !decide (w.id = target)).length + 1 = l.length := by
  intro l
  induction l with
  | nil =>
    intro _ hex
    obtain ⟨w, hw, _⟩ := hex
    exact absurd hw (List.not_mem_nil w)
  | cons a t ih =>
    intro hids hex
    simp only [List.map_cons, List.nodup_cons] at hids
    by_cases ha : a.id = target
    · have hfilter : t.filter (fun w => !decide (w.id = target)) = t := by
        rw [List.filter_eq_self]
        intro w hw
        simp only [Bool.not_eq_eq_eq_not, Bool.not_true, decide_eq_false_iff_not]
        intro heq
        exact hids.1 (List.mem_map.2 ⟨w, hw, heq.trans ha.symm⟩)
      simp [List.filter_cons, ha, hfilter]
    · obtain ⟨w, hw, hwid⟩ := hex
      rcases List.mem_cons.1 hw with rfl | hwt
      · exact absurd hwid ha
      · have hlen := ih hids.2 ⟨w, hwt, hwid⟩
        simp only [List.filter_cons, ha, decide_False, Bool.not_false, if_true,
          List.length_cons]
        omega

/-- C7: when id is registered (with pairwise-distinct ids, as in every
reachable state), closeWindow removes exactly that record: no window with
the id remains, the window count drops by one, every other window survives
as the very same record (every field, in particular isFocused and zIndex,
untouched), and the stacking counter is unchanged; close never transfers
focus to another window. -/
theorem close_removes_exactly (s : ManagerState) (id : String)
    (hids : (s.windows.map fun w => w.id).Nodup)
    (hpres : ∃ w ∈ s.windows, w.id = id) :
    (∀ w ∈ (closeWindow id s).windows, w.id ≠ id) ∧
    (closeWindow id s).windows.length + 1 = s.windows.length ∧
    (∀ w ∈ s.windows, w.id ≠ id → w ∈ (closeWindow id s).windows) ∧
    (∀ w ∈ (closeWindow id s).windows, w ∈ s.windows) ∧
    (closeWindow id s).topZIndex = s.topZIndex := by
  refine ⟨?_, ?_, ?_, ?_, rfl⟩
  · intro w hw
    simp only [closeWindow] at hw
    have hmem := List.of_mem_filter hw
    simpa using hmem
  · simp only [closeWindow, ne_eq, decide_not]
    exact length_filter_remove id s.windows hids hpres
  · intro w hw hne
    simp only [closeWindow]
    refine List.mem_filter.2 ⟨hw, ?_⟩
    simpa using hne
  · intro w hw
    simp only [closeWindow] at hw
    exact List.mem_of_mem_filter hw

/-- Witness for C7 at the concrete state with a, b, c open, closing b. -/
theorem close_removes_exactly_witness :
    (∀ w ∈ (closeWindow "b" stateABC).windows, w.id ≠ "b") ∧
    (closeWindow "b" stateABC).windows.length + 1 = stateABC.windows.length ∧
    (∀ w ∈ stateABC.windows, w.id ≠ "b" → w ∈ (closeWindow "b" stateABC).windows) ∧
    (∀ w ∈ (closeWindow "b" stateABC).windows, w ∈ stateABC.windows) ∧
    (closeWindow "b" stateABC).topZIndex = stateABC.topZIndex :=
  close_removes_exactly stateABC "b" (by decide) (by decide)

/-! ### C8: maximize is a pure flag toggle and an involution -/

/-- Toggling the isMaximized flag of the matching window twice is the
identity on each window record. -/
theorem maximize_double_toggle (id : String) (w : WindowState) :
    (fun u => if u.id = id then { u with isMaximized := !u.isMaximized } else u)
      ((fun u => if u.id = id then { u with isMaximized := !u.isMaximized } else u)
        w) = w := by
  cases w with
  | mk wid wtitle wapp wx wy wwidth wheight wz wmin wmax wfoc =>
    by_cases h : wid = id
    · simp [h]
    · simp [h]

/-- C8: maximizeWindow flips only the isMaximized flag of the target: the counter
and the bookkeeping are untouched, every non-target window survives
unchanged, the target keeps all other fields; and applying it twice returns
the whole state to exactly what it was. -/
theorem maximize_toggle_and_frame (s : ManagerState) (id : String) :
    maximizeWindow id (maximizeWindow id s) = s ∧
    (maximizeWindow id s).topZIndex = s.topZIndex ∧
    (maximizeWindow id s).openTimes = s.openTimes ∧
    (∀ w ∈ s.windows, w.id ≠ id → w ∈ (maximizeWindow id s).windows) ∧
    (∀ w ∈ s.windows, w.id = id →
      { w with isMaximized := !w.isMaximized } ∈ (maximizeWindow id s).windows) := by
  refine ⟨?_, rfl, rfl, ?_, ?_⟩
  · have hwin : s.windows.map
        ((fun u => if u.id = id then { u with isMaximized := !u.isMaximized } else u) ∘
          (fun u => if u.id = id then { u with isMaximized := !u.isMaximized } else u)) =
        s.windows :=
      map_noop _ s.windows (fun w _ => maximize_double_toggle id w)
    simp only [maximizeWindow, List.map_map, hwin]
  · intro w hw hne
    simp only [maximizeWindow]
    exact List.mem_map.2 ⟨w, hw, by rw [if_neg hne]⟩
  · intro w hw heq
    simp only [maximizeWindow]
    exact List.mem_map.2 ⟨w, hw, by rw [if_pos heq]⟩

/-- Witness for C8 at the concrete state with a, b, c open. -/
theorem maximize_toggle_and_frame_witness :
    maximizeWindow "a" (maximizeWindow "a" stateABC) = stateABC ∧
    (maximizeWindow "a" stateABC).topZIndex = stateABC.topZIndex :=
  ⟨(maximize_toggle_and_frame stateABC "a").1,
   (maximize_toggle_and_frame stateABC "a").2.1⟩

/-! ### C9: scenario D, focusing a behind b and c -/

/-- C9: from the state with a, b, c opened in that order, focus(a) leaves a
focused with the strictly greatest stacking value, b and c unfocused, and
the stacking values of b and c unchanged. -/
theorem scenario_focus_a :
    (∀ w ∈ (focusWindow "a" stateABC).windows, w.id = "a" →
      w.isFocused = true ∧
      ∀ w2 ∈ (focusWindow "a" stateABC).windows, w2.id ≠ "a" →
        w2.zIndex < w.zIndex) ∧
    (∀ w ∈ (focusWindow "a" stateABC).windows, w.id ≠ "a" →
      w.isFocused = false) ∧
    (∀ w ∈ (focusWindow "a" stateABC).windows, ∀ w0 ∈ stateABC.windows,
      w.id = w0.id → w.id ≠ "a" → w.zIndex = w0.zIndex) ∧
    (∃ w ∈ (focusWindow "a" stateABC).windows, w.id = "b") ∧
    (∃ w ∈ (focusWindow "a" stateABC).windows, w.id = "c") := by
  decide

/-! ### C10: open on an existing id keeps title, appType and geometry -/

/-- C10: when a window with the id already exists (minimized or visible),
openWindow leaves the title, appType, geometry and isMaximized flag of every
window unchanged, even when the supplied arguments differ; only isMinimized,
isFocused and zIndex may change. -/
theorem open_existing_keeps_identity (s : ManagerState) (a : OpenArgs)
    (hpres : ∃ w ∈ s.windows, w.id = a.id) :
    ∀ w ∈ s.windows, ∃ w2 ∈ (openWindow a s).windows,
      w2.id = w.id ∧ w2.title = w.title ∧ w2.appType = w.appType ∧
      w2.x = w.x ∧ w2.y = w.y ∧ w2.width = w.width ∧ w2.height = w.height ∧
      w2.isMaximized = w.isMaximized := by
  rcases hfind : s.windows.find? (fun w => decide (w.id = a.id)) with _ | existing
  · exfalso
    obtain ⟨w, hw, hwid⟩ := hpres
    have hx := List.find?_eq_none.1 hfind w hw
    simp [hwid] at hx
  · cases hmin : existing.isMinimized with
    | true =>
      simp only [openWindow, hfind, hmin, if_true]
      intro w hw
      refine ⟨_, List.mem_map_of_mem _ hw, ?_⟩
      by_cases h2 : w.id = a.id <;> simp [h2]
    | false =>
      simp only [openWindow, hfind, hmin, Bool.false_eq_true, if_false]
      intro w hw
      refine ⟨_, List.mem_map_of_mem _ hw, ?_⟩
      by_cases h2 : w.id = a.id <;> simp [h2]

/-- A second open request for id a carrying a different title and appType. -/
def argA2 : OpenArgs := { argA with title := "other", appType := "editor" }

/-- Witness for C10: re-opening a with different title and appType at the
concrete single-window state. -/
theorem open_existing_keeps_identity_witness :
    argA2.id = "a" ∧ argA2.title ≠ argA.title ∧
    (∀ w ∈ stateA.windows, ∃ w2 ∈ (openWindow argA2 stateA).windows,
      w2.id = w.id ∧ w2.title = w.title ∧ w2.appType = w.appType ∧
      w2.x = w.x ∧ w2.y = w.y ∧ w2.width = w.width ∧ w2.height = w.height ∧
      w2.isMaximized = w.isMaximized) :=
  ⟨rfl, by decide, open_existing_keeps_identity stateA argA2 (by decide)⟩
